import Mathlib

/-!
Shallow embedding of the capture-and-asset-normalization pipeline of the
repository (src/main.go): the data-URI codec (extractAndReplaceDataURIs,
guessExt, the regex data:<mime>;base64,<payload>), the network-idle
detector (waitForNetworkIdle), the stylesheet path derivation loop in main,
and the write step of grabRenderedHTML.  External collaborators (the
gohtml pretty-printer, the system MIME table mime.ExtensionsByType, the
filesystem) are passed in as parameters; Go standard-library pure
functions (crypto/sha1, encoding/base64, the Path component of net/url
Parse) are modelled directly.
-/

/-! ### Bytes, hex and SHA-1 (model of Go crypto/sha1 over byte lists) -/

/-- Truncation to a 32-bit word. -/
def w32 (n : Nat) : Nat := n % 4294967296

/-- Rotate a 32-bit word left by s bits (0 < s < 32, n < 2^32). -/
def rotl32 (s n : Nat) : Nat := (n * 2 ^ s + n / 2 ^ (32 - s)) % 4294967296

/-- Big-endian 4-byte encoding of a 32-bit word. -/
def bytesBE4 (n : Nat) : List Nat :=
  [n / 16777216 % 256, n / 65536 % 256, n / 256 % 256, n % 256]

/-- Big-endian 8-byte encoding of a 64-bit length. -/
def bytesBE8 (n : Nat) : List Nat :=
  [n / 72057594037927936 % 256, n / 281474976710656 % 256, n / 1099511627776 % 256,
   n / 4294967296 % 256, n / 16777216 % 256, n / 65536 % 256, n / 256 % 256, n % 256]

/-- SHA-1 padding: 0x80, zeros to 56 mod 64, then the bit length. -/
def sha1Pad (msg : List Nat) : List Nat :=
  msg ++ [128] ++ List.replicate ((119 - msg.length % 64) % 64) 0 ++ bytesBE8 (msg.length * 8)

/-- Group a byte list into big-endian 32-bit words. -/
def toWords : List Nat → List Nat
  | b0 :: b1 :: b2 :: b3 :: rest => (((b0 * 256 + b1) * 256 + b2) * 256 + b3) :: toWords rest
  | _ => []

/-- Split into 64-byte blocks; the counter is the number of blocks. -/
def toBlocksN : Nat → List Nat → List (List Nat)
  | 0, _ => []
  | k + 1, l => l.take 64 :: toBlocksN k (l.drop 64)

/-- One SHA-1 round (round index t, state (a,b,c,d,e)). -/
def sha1Step (w : List Nat) (t : Nat) (st : Nat × Nat × Nat × Nat × Nat) :
    Nat × Nat × Nat × Nat × Nat :=
  let a := st.1
  let b := st.2.1
  let c := st.2.2.1
  let d := st.2.2.2.1
  let e := st.2.2.2.2
  let f :=
    if t < 20 then (b &&& c) ||| ((b ^^^ 4294967295) &&& d)
    else if t < 40 then b ^^^ c ^^^ d
    else if t < 60 then (b &&& c) ||| (b &&& d) ||| (c &&& d)
    else b ^^^ c ^^^ d
  let kc :=
    if t < 20 then 1518500249
    else if t < 40 then 1859775393
    else if t < 60 then 2400959708
    else 3395469782
  ((rotl32 5 a + f + e + kc + w.getD t 0) % 4294967296, a, rotl32 30 b, c, d)

/-- Apply SHA-1 rounds 0 .. t-1 in order. -/
def sha1IterN (w : List Nat) : Nat → (Nat × Nat × Nat × Nat × Nat) → Nat × Nat × Nat × Nat × Nat
  | 0, st => st
  | t + 1, st => sha1Step w t (sha1IterN w t st)

/-- Extend the message schedule by one word. -/
def extendStep (w : List Nat) : List Nat :=
  w ++ [rotl32 1 ((w.getD (w.length - 3) 0) ^^^ (w.getD (w.length - 8) 0) ^^^
        (w.getD (w.length - 14) 0) ^^^ (w.getD (w.length - 16) 0))]

/-- Extend the 16-word schedule k more times (to 80). -/
def sha1SchedN : Nat → List Nat → List Nat
  | 0, w => w
  | k + 1, w => sha1SchedN k (extendStep w)

/-- Compress one 64-byte block into the running digest state. -/
def sha1Block (h : List Nat) (block : List Nat) : List Nat :=
  let w := sha1SchedN 64 (toWords block)
  let st := sha1IterN w 80 (h.getD 0 0, h.getD 1 0, h.getD 2 0, h.getD 3 0, h.getD 4 0)
  [(h.getD 0 0 + st.1) % 4294967296,
   (h.getD 1 0 + st.2.1) % 4294967296,
   (h.getD 2 0 + st.2.2.1) % 4294967296,
   (h.getD 3 0 + st.2.2.2.1) % 4294967296,
   (h.getD 4 0 + st.2.2.2.2) % 4294967296]

/-- SHA-1 digest (20 bytes) of a byte list, as in Go sha1.Sum. -/
def sha1Bytes (msg : List Nat) : List Nat :=
  let padded := sha1Pad msg
  ((toBlocksN (padded.length / 64) padded).foldl sha1Block
      [1732584193, 4023233417, 2562383102, 271733878, 3285377520]).map bytesBE4 |>.flatten

/-- Lowercase hex digit. -/
def hexDigitChar (n : Nat) : Char := if n < 10 then Char.ofNat (48 + n) else Char.ofNat (87 + n)

/-- Two lowercase hex digits of a byte, as in Go fmt %x on bytes. -/
def byteHex (b : Nat) : String := String.mk [hexDigitChar (b / 16), hexDigitChar (b % 16)]

/-- UTF-8 encoding of one character, matching Go string-to-bytes conversion. -/
def utf8Bytes (c : Char) : List Nat :=
  let n := c.toNat
  if n < 128 then [n]
  else if n < 2048 then [192 + n / 64, 128 + n % 64]
  else if n < 65536 then [224 + n / 4096, 128 + n / 64 % 64, 128 + n % 64]
  else [240 + n / 262144, 128 + n / 4096 % 64, 128 + n / 64 % 64, 128 + n % 64]

/-- Bytes of a string, matching Go's byte-slice conversion. -/
def strBytes (s : String) : List Nat := (s.toList.map utf8Bytes).flatten

/-- Lowercase hex rendering of the SHA-1 digest of a string: Go
fmt.Sprintf with %x on sha1.Sum of the byte slice. -/
def sha1Hex (s : String) : String := String.join ((sha1Bytes (strBytes s)).map byteHex)

/-- First n characters of a string (Go byte slicing on ASCII strings). -/
def strTake (s : String) (n : Nat) : String := String.mk (s.toList.take n)

/-- ASCII lowercasing, matching Go strings.ToLower on the ASCII strings
the data-URI regex can produce. -/
def strToLower (s : String) : String := String.mk (s.toList.map Char.toLower)

/-- The 12-character hash used by the codec: first 12 hex characters of
the SHA-1 digest of the raw base64 text (main.go lines 305-306). -/
def hashPref (b64 : String) : String := strTake (sha1Hex b64) 12

/-! ### Base64 decoding (model of Go encoding/base64 StdEncoding.DecodeString) -/

/-- Value of one standard-alphabet base64 character. -/
def b64Val (c : Char) : Option Nat :=
  if 'A' ≤ c ∧ c ≤ 'Z' then some (c.toNat - 65)
  else if 'a' ≤ c ∧ c ≤ 'z' then some (c.toNat - 97 + 26)
  else if '0' ≤ c ∧ c ≤ '9' then some (c.toNat - 48 + 52)
  else if c = '+' then some 62
  else if c = '/' then some 63
  else none

/-- Decode 4-character base64 quanta; padding with = is legal only in the
final quantum, as xx== or xxx=. -/
def b64DecodeGroups : List Char → Option (List Nat)
  | [] => some []
  | c1 :: c2 :: c3 :: c4 :: rest =>
    if rest.isEmpty ∧ c4 = '=' then
      match b64Val c1, b64Val c2 with
      | some v1, some v2 =>
        if c3 = '=' then some [v1 * 4 + v2 / 16]
        else
          match b64Val c3 with
          | some v3 => some [v1 * 4 + v2 / 16, v2 % 16 * 16 + v3 / 4]
          | none => none
      | _, _ => none
    else
      match b64Val c1, b64Val c2, b64Val c3, b64Val c4 with
      | some v1, some v2, some v3, some v4 =>
        match b64DecodeGroups rest with
        | some bs => some ((v1 * 4 + v2 / 16) :: (v2 % 16 * 16 + v3 / 4) :: (v3 % 4 * 64 + v4) :: bs)
        | none => none
      | _, _, _, _ => none
  | _ => none

/-- Model of Go base64.StdEncoding.DecodeString: the length must be a
multiple of 4, the alphabet must be standard, padding only at the end. -/
def base64Decode (s : String) : Option (List Nat) :=
  if s.toList.length % 4 = 0 then b64DecodeGroups s.toList else none

/-! ### guessExt (main.go lines 337-361); the system MIME table
mime.ExtensionsByType is an environment-supplied parameter. -/

/-- Extension choice for a MIME type, mirroring the switch in guessExt;
lookup models mime.ExtensionsByType (already-sorted extension list). -/
def guessExt (lookup : String → List String) (mimeType : String) : String :=
  if mimeType = "image/png" then ".png"
  else if mimeType = "image/jpeg" ∨ mimeType = "image/jpg" then ".jpg"
  else if mimeType = "image/webp" then ".webp"
  else if mimeType = "image/gif" then ".gif"
  else if mimeType = "image/svg+xml" then ".svg"
  else if mimeType = "image/avif" then ".avif"
  else if mimeType = "image/x-icon" ∨ mimeType = "image/vnd.microsoft.icon" then ".ico"
  else
    match lookup mimeType with
    | [] => ".bin"
    | e :: _ => e

/-! ### The data-URI regex and the replacement scan.

reDataURI is data:([a-zA-Z0-9.+\-\/]+);base64,([A-Za-z0-9+/=]+).  Both
character classes exclude the delimiters : ; and , so at every start
position the Go (leftmost, greedy) match is exactly: the literal data:,
the maximal nonempty run of mime characters, the literal ;base64, and the
maximal nonempty run of base64 characters. -/

/-- Characters of the regex class [a-zA-Z0-9.+\-\/]. -/
def isMimeChar (c : Char) : Bool :=
  c.isAlpha || c.isDigit || c == '.' || c == '+' || c == '-' || c == '/'

/-- Characters of the regex class [A-Za-z0-9+/=]. -/
def isB64Char (c : Char) : Bool :=
  c.isAlpha || c.isDigit || c == '+' || c == '/' || c == '='

/-- Drop an exact expected character sequence from the front of a list;
none when the list does not start with it. -/
def dropExact : List Char → List Char → Option (List Char)
  | [], l => some l
  | _ :: _, [] => none
  | c :: cs, x :: xs => if x = c then dropExact cs xs else none

/-- The literal data: that opens every match of the regex. -/
def dataLit : List Char := ['d', 'a', 't', 'a', ':']

/-- The literal ;base64, between the mime group and the payload group. -/
def base64Lit : List Char := [';', 'b', 'a', 's', 'e', '6', '4', ',']

/-- Try to match the data-URI regex at the head of the character list;
returns (mime characters, base64 characters, rest after the match). -/
def matchDataURI (l : List Char) : Option (List Char × List Char × List Char) :=
  match dropExact dataLit l with
  | none => none
  | some r1 =>
    if (r1.takeWhile isMimeChar).isEmpty then none
    else
      match dropExact base64Lit (r1.dropWhile isMimeChar) with
      | none => none
      | some r3 =>
        if (r3.takeWhile isB64Char).isEmpty then none
        else some (r1.takeWhile isMimeChar, r3.takeWhile isB64Char, r3.dropWhile isB64Char)

/-- The full text of one match: data:<mime>;base64,<payload>. -/
def uriStr (mime b64 : String) : String := "data:" ++ mime ++ ";base64," ++ b64

/-- Per-invocation state of the codec: the dedup map (hash to relative
path), the saved counter, the files successfully written (path, bytes)
and, as instrumentation of the filesystem interface, every write the
codec attempted (each os.WriteFile call). -/
structure CodecState where
  seen : List (String × String)
  saved : Nat
  files : List (String × List Nat)
  attempts : List String
deriving Repr, DecidableEq

/-- The empty initial codec state of one invocation. -/
def initCodec : CodecState := ⟨[], 0, [], []⟩

/-- The replacement callback of extractAndReplaceDataURIs (main.go lines
296-331) for one match, given the system MIME table and a write oracle
writeOk telling which os.WriteFile calls succeed.  The FindStringSubmatch
re-run inside the callback always returns the same three groups, so the
len check never fires. -/
def replaceOne (lookup : String → List String) (writeOk : String → Bool) (assetDir : String)
    (mime b64 : String) (st : CodecState) : String × CodecState :=
  let mimeType := strToLower mime
  let hp := hashPref b64
  match List.lookup hp st.seen with
  | some rel => (rel, st)
  | none =>
    match base64Decode b64 with
    | none => (uriStr mime b64, st)
    | some data =>
      let ext := guessExt lookup mimeType
      let filename := "b64_" ++ hp ++ ext
      let outPath := assetDir ++ "/" ++ filename
      if writeOk outPath then
        ("assets/" ++ filename,
         ⟨(hp, "assets/" ++ filename) :: st.seen, st.saved + 1,
          st.files ++ [(outPath, data)], st.attempts ++ [outPath]⟩)
      else (uriStr mime b64, ⟨st.seen, st.saved, st.files, st.attempts ++ [outPath]⟩)

/-- Fuel-driven scan implementing reDataURI.ReplaceAllStringFunc: walk the
text, replace each leftmost non-overlapping match via repl, keep other
characters.  Fuel at least the list length never runs out, because a
match consumes at least one character. -/
def scanReplaceF (repl : String → String → CodecState → String × CodecState) :
    Nat → List Char → CodecState → List Char × CodecState
  | 0, l, st => (l, st)
  | _ + 1, [], st => ([], st)
  | fuel + 1, c :: cs, st =>
    match matchDataURI (c :: cs) with
    | some (m, b, rest) =>
      let r1 := repl (String.mk m) (String.mk b) st
      let r2 := scanReplaceF repl fuel rest r1.2
      (r1.1.toList ++ r2.1, r2.2)
    | none =>
      let r := scanReplaceF repl fuel cs st
      (c :: r.1, r.2)

/-- ReplaceAllStringFunc over a character list. -/
def scanReplace (repl : String → String → CodecState → String × CodecState)
    (l : List Char) (st : CodecState) : List Char × CodecState :=
  scanReplaceF repl l.length l st

/-- Result of extractAndReplaceDataURIs: processed HTML, saved count, the
(always nil) error, and the filesystem effects. -/
structure ExtractResult where
  processed : String
  saved : Nat
  error : Option String
  files : List (String × List Nat)
  attempts : List String
deriving Repr, DecidableEq

/-- extractAndReplaceDataURIs (main.go lines 288-334): empty input is
returned as is; otherwise every regex match is replaced via replaceOne
starting from an empty dedup map; the error result is always nil. -/
def extractAndReplaceDataURIs (lookup : String → List String) (writeOk : String → Bool)
    (html : String) (assetDir : String) : ExtractResult :=
  if html = "" then ⟨html, 0, none, [], []⟩
  else
    let r := scanReplace (replaceOne lookup writeOk assetDir) html.toList initCodec
    ⟨String.mk r.1, r.2.saved, none, r.2.files, r.2.attempts⟩

/-! ### A piece decomposition of the scan, used to state and prove the
claims: the scan splits the text into literal characters and matches. -/

/-- One piece of the decomposition of an HTML text under the scan. -/
inductive Piece where
  | lit (c : Char)
  | uri (mime b64 : String)
deriving Repr, DecidableEq

/-- Fuel-driven decomposition into pieces, following exactly the same
match decisions as scanReplaceF. -/
def matchSplitF : Nat → List Char → List Piece
  | 0, _ => []
  | _ + 1, [] => []
  | fuel + 1, c :: cs =>
    match matchDataURI (c :: cs) with
    | some (m, b, rest) => .uri (String.mk m) (String.mk b) :: matchSplitF fuel rest
    | none => .lit c :: matchSplitF fuel cs

/-- Decomposition of a character list into literal and match pieces. -/
def matchSplit (l : List Char) : List Piece := matchSplitF l.length l

/-- The original text of a piece. -/
def pieceChars : Piece → List Char
  | .lit c => [c]
  | .uri m b => (uriStr m b).toList

/-- The original text of a piece list. -/
def piecesRender (ps : List Piece) : List Char := (ps.map pieceChars).flatten

/-- Whether a piece is a match. -/
def isUriP : Piece → Bool
  | .lit _ => false
  | .uri _ _ => true

/-- Whether any piece is a match. -/
def hasUriB (ps : List Piece) : Bool := ps.any isUriP

/-- Whether a piece is a literal or a match with the given payload. -/
def payloadIs (b : String) : Piece → Bool
  | .lit _ => true
  | .uri _ b' => b' == b

/-- Rendering in which every match is replaced by the same relative path. -/
def renderWith (rel : String) (ps : List Piece) : List Char :=
  (ps.map fun p =>
    match p with
    | .lit c => [c]
    | .uri _ _ => rel.toList).flatten

/-- Run the codec callback over a piece list: literals pass through, each
match is handed to repl with the state threaded left to right. -/
def runPieces (repl : String → String → CodecState → String × CodecState) :
    List Piece → CodecState → List Char × CodecState
  | [], st => ([], st)
  | .lit c :: ps, st =>
    let r := runPieces repl ps st
    (c :: r.1, r.2)
  | .uri m b :: ps, st =>
    let r1 := repl m b st
    let r2 := runPieces repl ps r1.2
    (r1.1.toList ++ r2.1, r2.2)

/-! ### The write step of grabRenderedHTML (main.go lines 269-283).
format abstracts the external pretty-printer gohtml.Format. -/

/-- The text grabRenderedHTML writes to outFile: the ActionFunc computes
pretty from the snapshot, runs the codec on the snapshot string html,
re-formats the codec output into pretty and writes it. -/
def grabWrittenText (format : String → String) (lookup : String → List String)
    (writeOk : String → Bool) (html : String) : String :=
  let pretty := format html
  let r := extractAndReplaceDataURIs lookup writeOk html ("output" ++ "/" ++ "assets")
  let pretty := format r.processed
  pretty

/-! ### The network-idle detector (main.go lines 208-244).  Time is in
milliseconds; the detector starts at instant 0 with lastActivity = now;
the event stream is a time-stamped trace; the polling loop ticks every
50 ms and the hard timeout fires at 30000 ms; an optional external
cancellation instant models ctx.Done. -/

/-- Network lifecycle events the listener reacts to. -/
inductive NetEvent where
  | requestWillBeSent
  | loadingFinished
  | loadingFailed
  | other
deriving Repr, DecidableEq

/-- The listener state: the in-flight counter (a Go int) and the instant
of last observed activity. -/
structure NetState where
  inflight : Int
  lastActivity : Nat
deriving Repr, DecidableEq

/-- The listen callback (main.go lines 213-224): start increments and
refreshes, finish or failure decrements guarded at zero and refreshes. -/
def listenStep (now : Nat) (st : NetState) (ev : NetEvent) : NetState :=
  match ev with
  | .requestWillBeSent => ⟨st.inflight + 1, now⟩
  | .loadingFinished => ⟨if st.inflight > 0 then st.inflight - 1 else st.inflight, now⟩
  | .loadingFailed => ⟨if st.inflight > 0 then st.inflight - 1 else st.inflight, now⟩
  | .other => st

/-- The listener state observed at instant t: all events of the trace
strictly before t applied in order to the initial state. -/
def stateAt (trace : List (Nat × NetEvent)) (t : Nat) : NetState :=
  (trace.filter fun p => p.1 < t).foldl (fun st p => listenStep p.1 st p.2) ⟨0, 0⟩

/-- The polling condition (main.go line 234): no request in flight and at
least idleFor elapsed since the last activity. -/
def idleCheck (idleFor : Nat) (trace : List (Nat × NetEvent)) (t : Nat) : Bool :=
  (stateAt trace t).inflight == 0 && decide (idleFor ≤ t - (stateAt trace t).lastActivity)

/-- Outcome of waitForNetworkIdle: success at an instant, the idle-timeout
error, or propagated cancellation. -/
inductive WaitResult where
  | success (t : Nat)
  | timeoutErr (t : Nat)
  | cancelled (t : Nat)
deriving Repr, DecidableEq

/-- Tick interval of the polling loop, milliseconds (main.go line 227). -/
def tickMs : Nat := 50

/-- The hard ceiling of the wait, milliseconds (main.go line 230). -/
def hardTimeoutMs : Nat := 30000

/-- Whether the external cancellation fires no later than the instant t
and no later than the hard timeout. -/
def cancelFires (cancel : Option Nat) (t : Nat) : Bool :=
  match cancel with
  | some c => decide (c ≤ t ∧ c ≤ hardTimeoutMs)
  | none => false

/-- The select loop (main.go lines 231-242): at the k-th tick (instant
k * 50) cancellation is observed first if due, then the hard timeout if
already past, then the idle condition; otherwise poll again. -/
def runIdleLoop (idleFor : Nat) (trace : List (Nat × NetEvent)) (cancel : Option Nat) :
    Nat → Nat → WaitResult
  | 0, _ => .timeoutErr hardTimeoutMs
  | fuel + 1, k =>
    if cancelFires cancel (k * tickMs) then .cancelled (cancel.getD 0)
    else if hardTimeoutMs < k * tickMs then .timeoutErr hardTimeoutMs
    else if idleCheck idleFor trace (k * tickMs) then .success (k * tickMs)
    else runIdleLoop idleFor trace cancel fuel (k + 1)

/-- waitForNetworkIdle run against a trace: the loop starts at the first
tick with enough fuel to reach the hard timeout. -/
def waitForNetworkIdle (idleFor : Nat) (cancel : Option Nat)
    (trace : List (Nat × NetEvent)) : WaitResult :=
  runIdleLoop idleFor trace cancel (hardTimeoutMs / tickMs + 2) 1

/-- The event stream of the claimed idle-detection scenario: three
request-started events followed by three finished events. -/
def tripleTrace (a1 a2 a3 b1 b2 b3 : Nat) : List (Nat × NetEvent) :=
  [(a1, .requestWillBeSent), (a2, .requestWillBeSent), (a3, .requestWillBeSent),
   (b1, .loadingFinished), (b2, .loadingFinished), (b3, .loadingFinished)]

/-! ### Stylesheet path derivation (main.go lines 152-179). -/

/-- Characters after the first scheme marker ://, if any. -/
def afterSchemeMarker : List Char → Option (List Char)
  | ':' :: '/' :: '/' :: rest => some rest
  | _ :: rest => afterSchemeMarker rest
  | [] => none

/-- Model of the Path component produced by Go net/url Parse, for URL
strings without percent-escapes: strip fragment and query; after a
scheme marker or a leading // the authority runs to the next slash and
the path is the remainder; a colon before any slash makes the URL opaque
with empty path; otherwise the whole string is the path. -/
def urlPath (s : String) : String :=
  let cs := (s.toList.takeWhile fun c => c ≠ '#').takeWhile fun c => c ≠ '?'
  match afterSchemeMarker cs with
  | some rest => String.mk (rest.dropWhile fun c => c ≠ '/')
  | none =>
    match cs with
    | '/' :: '/' :: rest => String.mk (rest.dropWhile fun c => c ≠ '/')
    | _ => if (cs.takeWhile fun c => c ≠ '/').contains ':' then "" else String.mk cs

/-- Leading slashes stripped, as strings.TrimLeft(path, "/"). -/
def trimLeftSlash (s : String) : String := String.mk (s.toList.dropWhile fun c => c == '/')

/-- Output path derived from an original path string and the 1-based
index n, as the loop body does after choosing originalPath: take the URL
path, substitute the synthetic name when empty or root, strip leading
slashes and join under output/css keeping all segments. -/
def resolveStylePath (originalPath : String) (n : Nat) : String :=
  "output" ++ "/" ++ "css" ++ "/" ++ trimLeftSlash
    (if urlPath originalPath = "" ∨ urlPath originalPath = "/" then
      "external_css_" ++ toString n ++ ".css"
    else urlPath originalPath)

/-- The resolved output path for the i-th stylesheet response (0-based):
the authored href at i wins over the response URL when present
(main.go lines 154-157). -/
def styleOutputPath (cssURLs linkHrefs : List String) (i : Nat) : String :=
  let originalPath := if i < linkHrefs.length then linkHrefs.getD i "" else cssURLs.getD i ""
  resolveStylePath originalPath (i + 1)

/-! ## Lemmas and claim theorems -/

/-! ### String and scan plumbing -/

theorem strAppend_toList (a b : String) : (a ++ b).toList = a.toList ++ b.toList := by
  cases a
  cases b
  rfl

theorem strMk_toList (s : String) : String.mk s.toList = s := rfl

theorem dropExact_eq_some : ∀ {pre l r : List Char}, dropExact pre l = some r → l = pre ++ r := by
  intro pre
  induction pre with
  | nil =>
    intro l r h
    simp only [dropExact, Option.some_inj] at h
    simp [h]
  | cons c cs ih =>
    intro l r h
    cases l with
    | nil => simp [dropExact] at h
    | cons x xs =>
      simp only [dropExact] at h
      split at h
      · next hx =>
        subst hx
        rw [List.cons_append]
        exact congrArg (x :: ·) (ih h)
      · exact absurd h (by simp)

theorem uriStr_toList (m b : List Char) :
    (uriStr (String.mk m) (String.mk b)).toList = dataLit ++ m ++ base64Lit ++ b := by
  unfold uriStr
  rw [strAppend_toList, strAppend_toList, strAppend_toList]
  rfl

theorem matchDataURI_chars {l m b rest : List Char}
    (h : matchDataURI l = some (m, b, rest)) :
    l = dataLit ++ m ++ base64Lit ++ (b ++ rest) := by
  unfold matchDataURI at h
  split at h
  · exact absurd h (by simp)
  · rename_i r1 heq1
    split at h
    · exact absurd h (by simp)
    · rename_i hne1
      split at h
      · exact absurd h (by simp)
      · rename_i r3 heq2
        split at h
        · exact absurd h (by simp)
        · rename_i hne2
          injection h with h'
          simp only [Prod.mk.injEq] at h'
          obtain ⟨hm, hb, hr⟩ := h'
          subst hm hb hr
          rw [dropExact_eq_some heq1]
          conv_lhs => rw [← List.takeWhile_append_dropWhile (p := isMimeChar) (l := r1)]
          rw [dropExact_eq_some heq2]
          conv_lhs => rw [← List.takeWhile_append_dropWhile (p := isB64Char) (l := r3)]
          simp [List.append_assoc]

theorem matchDataURI_rest_length {l m b rest : List Char}
    (h : matchDataURI l = some (m, b, rest)) : rest.length < l.length := by
  rw [matchDataURI_chars h]
  simp [dataLit, base64Lit]
  omega

theorem scanF_eq_pieces (repl : String → String → CodecState → String × CodecState) :
    ∀ (fuel : Nat) (l : List Char) (st : CodecState), l.length ≤ fuel →
      scanReplaceF repl fuel l st = runPieces repl (matchSplitF fuel l) st := by
  intro fuel
  induction fuel with
  | zero =>
    intro l st h
    have hl : l = [] := List.length_eq_zero.mp (Nat.le_zero.mp h)
    subst hl
    rfl
  | succ n ih =>
    intro l st h
    cases l with
    | nil => rfl
    | cons c cs =>
      simp only [List.length_cons] at h
      cases hm : matchDataURI (c :: cs) with
      | none =>
        simp only [scanReplaceF, matchSplitF, hm, runPieces]
        rw [ih cs st (by omega)]
      | some x =>
        obtain ⟨m, b, rest⟩ := x
        have hlt := matchDataURI_rest_length hm
        simp only [List.length_cons] at hlt
        simp only [scanReplaceF, matchSplitF, hm, runPieces]
        rw [ih rest _ (by omega)]

theorem scan_eq_pieces (repl : String → String → CodecState → String × CodecState)
    (l : List Char) (st : CodecState) :
    scanReplace repl l st = runPieces repl (matchSplit l) st :=
  scanF_eq_pieces repl l.length l st (Nat.le_refl _)

theorem piecesRender_cons (p : Piece) (ps : List Piece) :
    piecesRender (p :: ps) = pieceChars p ++ piecesRender ps := by
  simp [piecesRender]

theorem renderWith_cons_lit (rel : String) (c : Char) (ps : List Piece) :
    renderWith rel (.lit c :: ps) = c :: renderWith rel ps := by
  simp [renderWith]

theorem renderWith_cons_uri (rel m b : String) (ps : List Piece) :
    renderWith rel (.uri m b :: ps) = rel.toList ++ renderWith rel ps := by
  simp [renderWith]

theorem renderWith_append (rel : String) (P Q : List Piece) :
    renderWith rel (P ++ Q) = renderWith rel P ++ renderWith rel Q := by
  simp [renderWith]

theorem matchSplitF_render : ∀ (fuel : Nat) (l : List Char), l.length ≤ fuel →
    piecesRender (matchSplitF fuel l) = l := by
  intro fuel
  induction fuel with
  | zero =>
    intro l h
    have hl : l = [] := List.length_eq_zero.mp (Nat.le_zero.mp h)
    subst hl
    rfl
  | succ n ih =>
    intro l h
    cases l with
    | nil => rfl
    | cons c cs =>
      simp only [List.length_cons] at h
      cases hm : matchDataURI (c :: cs) with
      | none =>
        simp only [matchSplitF, hm]
        rw [piecesRender_cons, ih cs (by omega)]
        rfl
      | some x =>
        obtain ⟨m, b, rest⟩ := x
        have hlt := matchDataURI_rest_length hm
        simp only [List.length_cons] at hlt
        simp only [matchSplitF, hm]
        rw [piecesRender_cons, ih rest (by omega)]
        rw [show pieceChars (.uri (String.mk m) (String.mk b)) = dataLit ++ m ++ base64Lit ++ b from
          uriStr_toList m b]
        rw [matchDataURI_chars hm]
        simp [List.append_assoc]

theorem matchSplit_render (l : List Char) : piecesRender (matchSplit l) = l :=
  matchSplitF_render l.length l (Nat.le_refl _)

theorem runPieces_append (repl : String → String → CodecState → String × CodecState)
    (P Q : List Piece) (st : CodecState) :
    runPieces repl (P ++ Q) st =
      ((runPieces repl P st).1 ++ (runPieces repl Q (runPieces repl P st).2).1,
       (runPieces repl Q (runPieces repl P st).2).2) := by
  induction P generalizing st with
  | nil => simp [runPieces]
  | cons p ps ih =>
    cases p with
    | lit c => simp [runPieces, ih]
    | uri m b => simp [runPieces, ih, List.append_assoc]

theorem runPieces_lits (repl : String → String → CodecState → String × CodecState)
    (L : List Piece) (st : CodecState) (h : L.all (fun p => !isUriP p) = true) :
    runPieces repl L st = (piecesRender L, st) := by
  induction L with
  | nil => rfl
  | cons p ps ih =>
    rw [List.all_cons, Bool.and_eq_true] at h
    obtain ⟨h1, h2⟩ := h
    cases p with
    | lit c => simp [runPieces, ih h2, piecesRender_cons, pieceChars]
    | uri m b => simp [isUriP] at h1

theorem runPieces_dedup (lookup : String → List String) (writeOk : String → Bool)
    (assetDir b rel : String) (ps : List Piece) (st : CodecState)
    (hseen : List.lookup (hashPref b) st.seen = some rel)
    (hpay : ps.all (payloadIs b) = true) :
    runPieces (replaceOne lookup writeOk assetDir) ps st = (renderWith rel ps, st) := by
  induction ps with
  | nil => rfl
  | cons p ps ih =>
    rw [List.all_cons, Bool.and_eq_true] at hpay
    obtain ⟨h1, h2⟩ := hpay
    cases p with
    | lit c => simp [runPieces, ih h2, renderWith_cons_lit]
    | uri m b' =>
      have hb : b' = b := by simpa [payloadIs] using h1
      subst hb
      have hro : replaceOne lookup writeOk assetDir m b' st = (rel, st) := by
        simp only [replaceOne, hseen]
      simp [runPieces, hro, ih h2, renderWith_cons_uri]

theorem extract_eq_runPieces (lookup : String → List String) (writeOk : String → Bool)
    (html assetDir : String) (h : html ≠ "") :
    extractAndReplaceDataURIs lookup writeOk html assetDir =
      ⟨String.mk (runPieces (replaceOne lookup writeOk assetDir) (matchSplit html.toList) initCodec).1,
       (runPieces (replaceOne lookup writeOk assetDir) (matchSplit html.toList) initCodec).2.saved,
       none,
       (runPieces (replaceOne lookup writeOk assetDir) (matchSplit html.toList) initCodec).2.files,
       (runPieces (replaceOne lookup writeOk assetDir) (matchSplit html.toList) initCodec).2.attempts⟩ := by
  have he := scanF_eq_pieces (replaceOne lookup writeOk assetDir)
    html.toList.length html.toList initCodec (Nat.le_refl _)
  simp only [extractAndReplaceDataURIs, if_neg h, scanReplace, he, matchSplit]

set_option maxRecDepth 10000

theorem runPieces_nil (repl : String → String → CodecState → String × CodecState)
    (st : CodecState) : runPieces repl [] st = ([], st) := rfl

theorem runPieces_lit_cons (repl : String → String → CodecState → String × CodecState)
    (c : Char) (ps : List Piece) (st : CodecState) :
    runPieces repl (.lit c :: ps) st =
      ((runPieces repl ps st).1.cons c, (runPieces repl ps st).2) := rfl

theorem runPieces_uri_cons (repl : String → String → CodecState → String × CodecState)
    (m b : String) (ps : List Piece) (st : CodecState) :
    runPieces repl (.uri m b :: ps) st =
      ((repl m b st).1.toList ++ (runPieces repl ps (repl m b st).2).1,
       (runPieces repl ps (repl m b st).2).2) := rfl

theorem all_notUri (ps : List Piece) (h : hasUriB ps = false) :
    ps.all (fun p => !isUriP p) = true := by
  simp only [hasUriB] at h
  simp at h
  rw [List.all_eq_true]
  intro p hp
  simp [h p hp]

theorem renderWith_lits (rel : String) (L : List Piece)
    (h : L.all (fun p => !isUriP p) = true) : renderWith rel L = piecesRender L := by
  induction L with
  | nil => rfl
  | cons p ps ih =>
    rw [List.all_cons, Bool.and_eq_true] at h
    obtain ⟨h1, h2⟩ := h
    cases p with
    | lit c =>
      rw [renderWith_cons_lit, piecesRender_cons, ih h2]
      rfl
    | uri m b => simp [isUriP] at h1

theorem split_ne_nil_of_shape {html : String} {ps : List Piece}
    (hsplit : matchSplit html.toList = ps) (hne : ps ≠ []) : html ≠ "" := by
  intro he
  subst he
  have h0 : matchSplit ("" : String).toList = [] := by decide
  rw [h0] at hsplit
  exact hne hsplit.symm

theorem noUri_extract (lookup : String → List String) (writeOk : String → Bool)
    (s assetDir : String) (h : hasUriB (matchSplit s.toList) = false) :
    extractAndReplaceDataURIs lookup writeOk s assetDir = ⟨s, 0, none, [], []⟩ := by
  by_cases hs : s = ""
  · subst hs
    rfl
  · rw [extract_eq_runPieces lookup writeOk s assetDir hs,
      runPieces_lits _ _ _ (all_notUri _ h)]
    simp [matchSplit_render, initCodec]

/-- C3: after one run of the codec, whose output contains no remaining
data URIs, a second run on that output returns it unchanged, with
savedCount 0, nil error and no files written. -/
theorem extract_idempotent_c3 (lookup : String → List String) (writeOk : String → Bool)
    (html assetDir h' : String)
    (hh : (extractAndReplaceDataURIs lookup writeOk html assetDir).processed = h')
    (hnone : hasUriB (matchSplit h'.toList) = false) :
    extractAndReplaceDataURIs lookup writeOk h' assetDir = ⟨h', 0, none, [], []⟩ :=
  noUri_extract lookup writeOk h' assetDir hnone

theorem extract_idempotent_c3_w :
    (extractAndReplaceDataURIs (fun _ => []) (fun _ => true)
        "x data:image/png;base64,aGk= y" "output/assets").processed
      = "x assets/b64_2c2e6fa14ec2.png y"
    ∧ extractAndReplaceDataURIs (fun _ => []) (fun _ => true)
        "x assets/b64_2c2e6fa14ec2.png y" "output/assets"
      = ⟨"x assets/b64_2c2e6fa14ec2.png y", 0, none, [], []⟩ :=
  ⟨by decide,
   extract_idempotent_c3 (fun _ => []) (fun _ => true)
     "x data:image/png;base64,aGk= y" "output/assets"
     "x assets/b64_2c2e6fa14ec2.png y" (by decide) (by decide)⟩

/-- C2: when the scan decomposes the HTML into some literal text, a first
match with payload b, and a tail whose matches all carry the same payload
b (any mime types, any surrounding text), the codec writes exactly one
asset file, named from the first 12 hex characters of the SHA-1 digest of
the raw base64 text b, counts one saved asset, and rewrites every
occurrence to the same relative path. -/
theorem extract_dedup_c2 (lookup : String → List String) (assetDir html : String)
    (L0 rest : List Piece) (m0 b ext rel path : String) (data : List Nat)
    (hsplit : matchSplit html.toList = L0 ++ Piece.uri m0 b :: rest)
    (hlits : L0.all (fun p => !isUriP p) = true)
    (hpay : rest.all (payloadIs b) = true)
    (hmore : 1 ≤ (rest.filter isUriP).length)
    (hdec : base64Decode b = some data)
    (hext : ext = guessExt lookup (strToLower m0))
    (hrel : rel = "assets/" ++ ("b64_" ++ hashPref b ++ ext))
    (hpath : path = assetDir ++ "/" ++ ("b64_" ++ hashPref b ++ ext)) :
    extractAndReplaceDataURIs lookup (fun _ => true) html assetDir =
      ⟨String.mk (renderWith rel (L0 ++ Piece.uri m0 b :: rest)), 1, none,
       [(path, data)], [path]⟩ := by
  subst hext hrel hpath
  have hne : html ≠ "" := split_ne_nil_of_shape hsplit (by simp)
  have hro : replaceOne lookup (fun _ => true) assetDir m0 b initCodec =
      ("assets/" ++ ("b64_" ++ hashPref b ++ guessExt lookup (strToLower m0)),
       ⟨[(hashPref b, "assets/" ++ ("b64_" ++ hashPref b ++ guessExt lookup (strToLower m0)))], 1,
        [(assetDir ++ "/" ++ ("b64_" ++ hashPref b ++ guessExt lookup (strToLower m0)), data)],
        [assetDir ++ "/" ++ ("b64_" ++ hashPref b ++ guessExt lookup (strToLower m0))]⟩) := by
    simp [replaceOne, initCodec, List.lookup, hdec]
  rw [extract_eq_runPieces lookup (fun _ => true) html assetDir hne, hsplit,
    runPieces_append, runPieces_lits _ _ _ hlits, runPieces_uri_cons]
  simp only [hro]
  rw [runPieces_dedup lookup (fun _ => true) assetDir b
    ("assets/" ++ ("b64_" ++ hashPref b ++ guessExt lookup (strToLower m0))) rest _
    (by simp [List.lookup]) hpay]
  simp [renderWith_append, renderWith_cons_uri, renderWith_lits _ _ hlits]

theorem extract_dedup_c2_w :
    (matchSplit ("<p>data:image/png;base64,aGk= data:image/jpeg;base64,aGk=</p>").toList
        = [Piece.lit '<', Piece.lit 'p', Piece.lit '>'] ++
          Piece.uri "image/png" "aGk=" ::
          [Piece.lit ' ', Piece.uri "image/jpeg" "aGk=", Piece.lit '<', Piece.lit '/',
           Piece.lit 'p', Piece.lit '>'])
    ∧ extractAndReplaceDataURIs (fun _ => []) (fun _ => true)
        "<p>data:image/png;base64,aGk= data:image/jpeg;base64,aGk=</p>" "output/assets" =
      ⟨String.mk (renderWith "assets/b64_2c2e6fa14ec2.png"
          ([Piece.lit '<', Piece.lit 'p', Piece.lit '>'] ++
           Piece.uri "image/png" "aGk=" ::
           [Piece.lit ' ', Piece.uri "image/jpeg" "aGk=", Piece.lit '<', Piece.lit '/',
            Piece.lit 'p', Piece.lit '>'])), 1, none,
       [("output/assets/b64_2c2e6fa14ec2.png", [104, 105])],
       ["output/assets/b64_2c2e6fa14ec2.png"]⟩ :=
  ⟨by decide,
   extract_dedup_c2 (fun _ => []) "output/assets"
     "<p>data:image/png;base64,aGk= data:image/jpeg;base64,aGk=</p>"
     [Piece.lit '<', Piece.lit 'p', Piece.lit '>']
     [Piece.lit ' ', Piece.uri "image/jpeg" "aGk=", Piece.lit '<', Piece.lit '/',
      Piece.lit 'p', Piece.lit '>']
     "image/png" "aGk=" ".png" "assets/b64_2c2e6fa14ec2.png" "output/assets/b64_2c2e6fa14ec2.png"
     [104, 105]
     (by decide) (by decide) (by decide) (by decide) (by decide) (by decide) (by decide) (by decide)⟩

/-- C8: an occurrence whose base64 payload fails to decode (and whose
hash is not yet in the dedup map) is left byte-for-byte in the output,
the codec state crosses it unchanged, so the saved counter does not
increase for it; the remaining pieces are still processed from that same
state, and the call returns a nil error. -/
theorem extract_decode_softfail_c8
    (lookup : String → List String) (writeOk : String → Bool) (assetDir html : String)
    (A B : List Piece) (m b : String) (sA sB : List Char) (stA stB : CodecState)
    (hsplit : matchSplit html.toList = A ++ Piece.uri m b :: B)
    (hdec : base64Decode b = none)
    (hA : runPieces (replaceOne lookup writeOk assetDir) A initCodec = (sA, stA))
    (hseen : List.lookup (hashPref b) stA.seen = none)
    (hB : runPieces (replaceOne lookup writeOk assetDir) B stA = (sB, stB)) :
    extractAndReplaceDataURIs lookup writeOk html assetDir =
      ⟨String.mk (sA ++ ((uriStr m b).toList ++ sB)), stB.saved, none, stB.files, stB.attempts⟩ := by
  have hne : html ≠ "" := split_ne_nil_of_shape hsplit (by simp)
  have hro : replaceOne lookup writeOk assetDir m b stA = (uriStr m b, stA) := by
    simp [replaceOne, hseen, hdec]
  rw [extract_eq_runPieces lookup writeOk html assetDir hne, hsplit,
    runPieces_append, hA, runPieces_uri_cons]
  simp only [hro, hB]

theorem extract_decode_softfail_c8_w :
    base64Decode "QQ" = none
    ∧ extractAndReplaceDataURIs (fun _ => []) (fun _ => true)
        "q data:image/png;base64,QQ e data:text/plain;base64,aGk= w" "output/assets" =
      ⟨String.mk (['q', ' '] ++ ((uriStr "image/png" "QQ").toList ++
          (" e assets/b64_2c2e6fa14ec2.bin w").toList)),
       (⟨[("2c2e6fa14ec2", "assets/b64_2c2e6fa14ec2.bin")], 1,
         [("output/assets/b64_2c2e6fa14ec2.bin", [104, 105])],
         ["output/assets/b64_2c2e6fa14ec2.bin"]⟩ : CodecState).saved, none,
       (⟨[("2c2e6fa14ec2", "assets/b64_2c2e6fa14ec2.bin")], 1,
         [("output/assets/b64_2c2e6fa14ec2.bin", [104, 105])],
         ["output/assets/b64_2c2e6fa14ec2.bin"]⟩ : CodecState).files,
       (⟨[("2c2e6fa14ec2", "assets/b64_2c2e6fa14ec2.bin")], 1,
         [("output/assets/b64_2c2e6fa14ec2.bin", [104, 105])],
         ["output/assets/b64_2c2e6fa14ec2.bin"]⟩ : CodecState).attempts⟩ :=
  ⟨by decide,
   extract_decode_softfail_c8 (fun _ => []) (fun _ => true) "output/assets"
     "q data:image/png;base64,QQ e data:text/plain;base64,aGk= w"
     [Piece.lit 'q', Piece.lit ' ']
     [Piece.lit ' ', Piece.lit 'e', Piece.lit ' ', Piece.uri "text/plain" "aGk=",
      Piece.lit ' ', Piece.lit 'w']
     "image/png" "QQ" ['q', ' '] (" e assets/b64_2c2e6fa14ec2.bin w").toList
     initCodec
     ⟨[("2c2e6fa14ec2", "assets/b64_2c2e6fa14ec2.bin")], 1,
      [("output/assets/b64_2c2e6fa14ec2.bin", [104, 105])],
      ["output/assets/b64_2c2e6fa14ec2.bin"]⟩
     (by decide) (by decide) (by decide) (by decide) (by decide)⟩

/-- Folding the codec over pieces whose matches all carry payload b when
every file write fails: the text is reproduced unchanged, the dedup map
and counters are untouched, and one write is attempted per match. -/
theorem runPieces_allfail (lookup : String → List String) (assetDir b : String)
    (data : List Nat) (hdec : base64Decode b = some data) :
    ∀ (ps : List Piece) (st : CodecState), st.seen = [] → ps.all (payloadIs b) = true →
    runPieces (replaceOne lookup (fun _ => false) assetDir) ps st =
      (piecesRender ps,
       ⟨st.seen, st.saved, st.files, st.attempts ++ ps.filterMap (fun p =>
          match p with
          | .lit _ => none
          | .uri m _ =>
            some (assetDir ++ "/" ++ ("b64_" ++ hashPref b ++ guessExt lookup (strToLower m))))⟩) := by
  intro ps
  induction ps with
  | nil =>
    intro st hseen0 hpay
    simp [runPieces, piecesRender]
  | cons p ps ih =>
    intro st hseen0 hpay
    rw [List.all_cons, Bool.and_eq_true] at hpay
    obtain ⟨h1, h2⟩ := hpay
    cases p with
    | lit c =>
      rw [runPieces_lit_cons, ih st hseen0 h2, piecesRender_cons]
      simp [pieceChars]
    | uri m b' =>
      have hb : b' = b := by simpa [payloadIs] using h1
      subst hb
      have hro : replaceOne lookup (fun _ => false) assetDir m b' st =
          (uriStr m b',
           ⟨st.seen, st.saved, st.files,
            st.attempts ++ [assetDir ++ "/" ++ ("b64_" ++ hashPref b' ++ guessExt lookup (strToLower m))]⟩) := by
        have hs : List.lookup (hashPref b') st.seen = none := by rw [hseen0]; rfl
        simp [replaceOne, hs, hdec]
      rw [runPieces_uri_cons, hro, ih _ (by simp [hseen0]) h2, piecesRender_cons]
      simp [pieceChars, List.append_assoc]

/-- C10: a soft-failed occurrence leaves the codec state unchanged.  At
occurrence level, a failed write only logs the attempt (dedup map, saved
counter and file list untouched) and a failed decode changes nothing at
all; whole-call, with every write failing, an HTML whose matches share
one payload is returned unchanged with savedCount 0 and no files, while
every occurrence (later ones with the same payload included) is decoded
and its write attempted afresh rather than being rewritten to a path
whose file was never created. -/
theorem extract_softfail_state_c10 :
    (∀ (lookup : String → List String) (writeOk : String → Bool) (assetDir m b : String)
        (data : List Nat) (st : CodecState),
      List.lookup (hashPref b) st.seen = none →
      base64Decode b = some data →
      writeOk (assetDir ++ "/" ++ ("b64_" ++ hashPref b ++ guessExt lookup (strToLower m))) = false →
      replaceOne lookup writeOk assetDir m b st =
        (uriStr m b,
         ⟨st.seen, st.saved, st.files,
          st.attempts ++ [assetDir ++ "/" ++ ("b64_" ++ hashPref b ++ guessExt lookup (strToLower m))]⟩))
    ∧
    (∀ (lookup : String → List String) (writeOk : String → Bool) (assetDir m b : String)
        (st : CodecState),
      List.lookup (hashPref b) st.seen = none →
      base64Decode b = none →
      replaceOne lookup writeOk assetDir m b st = (uriStr m b, st))
    ∧
    (∀ (lookup : String → List String) (assetDir html : String) (ps : List Piece)
        (b : String) (data : List Nat),
      matchSplit html.toList = ps →
      ps.all (payloadIs b) = true →
      2 ≤ (ps.filter isUriP).length →
      base64Decode b = some data →
      extractAndReplaceDataURIs lookup (fun _ => false) html assetDir =
        ⟨html, 0, none, [],
         ps.filterMap fun p =>
           match p with
           | .lit _ => none
           | .uri m _ =>
             some (assetDir ++ "/" ++ ("b64_" ++ hashPref b ++ guessExt lookup (strToLower m)))⟩) := by
  refine ⟨?_, ?_, ?_⟩
  · intro lookup writeOk assetDir m b data st hseen hdec hw
    simp [replaceOne, hseen, hdec, hw]
  · intro lookup writeOk assetDir m b st hseen hdec
    simp [replaceOne, hseen, hdec]
  · intro lookup assetDir html ps b data hsplit hpay hcount hdec
    have hne : html ≠ "" := by
      refine split_ne_nil_of_shape hsplit ?_
      intro he
      rw [he] at hcount
      simp at hcount
    rw [extract_eq_runPieces lookup (fun _ => false) html assetDir hne, hsplit,
      runPieces_allfail lookup assetDir b data hdec ps initCodec (by rfl) hpay]
    have hr : piecesRender ps = html.toList := by
      rw [← hsplit]
      exact matchSplit_render html.toList
    simp [hr, initCodec]

theorem extract_softfail_state_c10_w :
    base64Decode "aGk=" = some [104, 105]
    ∧ replaceOne (fun _ => []) (fun _ => false) "output/assets" "image/png" "aGk=" initCodec =
        (uriStr "image/png" "aGk=",
         ⟨initCodec.seen, initCodec.saved, initCodec.files,
          initCodec.attempts ++ ["output/assets" ++ "/" ++
            ("b64_" ++ hashPref "aGk=" ++ guessExt (fun _ => []) (strToLower "image/png"))]⟩)
    ∧ replaceOne (fun _ => []) (fun _ => false) "output/assets" "image/png" "QQ" initCodec =
        (uriStr "image/png" "QQ", initCodec)
    ∧ extractAndReplaceDataURIs (fun _ => []) (fun _ => false)
        "data:image/png;base64,aGk= data:image/jpeg;base64,aGk=" "output/assets" =
      ⟨"data:image/png;base64,aGk= data:image/jpeg;base64,aGk=", 0, none, [],
       [Piece.uri "image/png" "aGk=", Piece.lit ' ',
        Piece.uri "image/jpeg" "aGk="].filterMap fun p =>
         match p with
         | .lit _ => none
         | .uri m _ =>
           some ("output/assets" ++ "/" ++
             ("b64_" ++ hashPref "aGk=" ++ guessExt (fun _ => []) (strToLower m)))⟩ :=
  ⟨by decide,
   extract_softfail_state_c10.1 (fun _ => []) (fun _ => false) "output/assets"
     "image/png" "aGk=" [104, 105] initCodec (by decide) (by decide) (by decide),
   extract_softfail_state_c10.2.1 (fun _ => []) (fun _ => false) "output/assets"
     "image/png" "QQ" initCodec (by decide) (by decide),
   extract_softfail_state_c10.2.2 (fun _ => []) "output/assets"
     "data:image/png;base64,aGk= data:image/jpeg;base64,aGk="
     [Piece.uri "image/png" "aGk=", Piece.lit ' ', Piece.uri "image/jpeg" "aGk="]
     "aGk=" [104, 105] (by decide) (by decide) (by decide) (by decide)⟩

/-- C1 (divergence from the spec): the write step of grabRenderedHTML
hands the codec the raw snapshot string html, not the pretty-printed
markup (the pretty of line 270 is computed and never read), so for every
formatter the written text is format applied to the codec output on the
raw snapshot; and for a concrete formatter and snapshot this differs
from the claimed format (extract (format snapshot)). -/
theorem grab_passes_raw_html_c1 :
    (∀ (format : String → String) (lookup : String → List String)
        (writeOk : String → Bool) (html : String),
      grabWrittenText format lookup writeOk html =
        format (extractAndReplaceDataURIs lookup writeOk html
          ("output" ++ "/" ++ "assets")).processed)
    ∧
    grabWrittenText (fun s => s ++ "\n") (fun _ => []) (fun _ => true)
        "data:image/png;base64,aGk=" ≠
      (fun s => s ++ "\n")
        (extractAndReplaceDataURIs (fun _ => []) (fun _ => true)
          ((fun s => s ++ "\n") "data:image/png;base64,aGk=")
          ("output" ++ "/" ++ "assets")).processed :=
  ⟨fun _ _ _ _ => rfl, by decide⟩

/-- C7 counterexample: image/jpg is not one of the seven mime types the
claim lists, yet guessExt returns .jpg for it even when the system table
has no mapping at all, instead of the claimed fallback .bin. -/
theorem guessExt_claim_false_c7 :
    guessExt (fun _ => []) "image/jpg" = ".jpg" ∧
    guessExt (fun _ => []) "image/jpg" ≠ ".bin" := by
  constructor
  · rfl
  · decide

/-- C7 amended: the fixed table maps the seven listed mime types as
claimed but also hardcodes image/jpg to .jpg and
image/vnd.microsoft.icon to .ico; only mime types outside these nine
fall back to the system lookup (first extension), and to .bin when the
lookup is empty. -/
theorem guessExt_table_c7 (lookup : String → List String) :
    guessExt lookup "image/png" = ".png" ∧
    guessExt lookup "image/jpeg" = ".jpg" ∧
    guessExt lookup "image/jpg" = ".jpg" ∧
    guessExt lookup "image/webp" = ".webp" ∧
    guessExt lookup "image/gif" = ".gif" ∧
    guessExt lookup "image/svg+xml" = ".svg" ∧
    guessExt lookup "image/avif" = ".avif" ∧
    guessExt lookup "image/x-icon" = ".ico" ∧
    guessExt lookup "image/vnd.microsoft.icon" = ".ico" ∧
    (∀ m : String,
      m ∉ (["image/png", "image/jpeg", "image/jpg", "image/webp", "image/gif",
            "image/svg+xml", "image/avif", "image/x-icon",
            "image/vnd.microsoft.icon"] : List String) →
      guessExt lookup m =
        match lookup m with
        | [] => ".bin"
        | e :: _ => e) := by
  refine ⟨rfl, rfl, rfl, rfl, rfl, rfl, rfl, rfl, rfl, ?_⟩
  intro m hm
  simp only [List.mem_cons, List.not_mem_nil, or_false, not_or] at hm
  obtain ⟨h1, h2, h3, h4, h5, h6, h7, h8, h9⟩ := hm
  unfold guessExt
  rw [if_neg h1, if_neg (by simp [h2, h3]), if_neg h4, if_neg h5, if_neg h6,
    if_neg h7, if_neg (by simp [h8, h9])]

theorem guessExt_table_c7_w :
    ("application/pdf" : String) ∉
      (["image/png", "image/jpeg", "image/jpg", "image/webp", "image/gif",
        "image/svg+xml", "image/avif", "image/x-icon",
        "image/vnd.microsoft.icon"] : List String)
    ∧ guessExt (fun _ => [".pdf"]) "application/pdf" = ".pdf"
    ∧ guessExt (fun _ => []) "application/pdf" = ".bin" :=
  ⟨by decide,
   (guessExt_table_c7 (fun _ => [".pdf"])).2.2.2.2.2.2.2.2.2 "application/pdf" (by decide),
   (guessExt_table_c7 (fun _ => [])).2.2.2.2.2.2.2.2.2 "application/pdf" (by decide)⟩

/-! ### Network-idle detector lemmas -/

theorem runIdle_timeout_aux (idleFor : Nat) (trace : List (Nat × NetEvent)) :
    ∀ (fuel k : Nat), 1 ≤ k → 601 - k < fuel →
    (∀ j, k ≤ j → j ≤ 600 → idleCheck idleFor trace (j * 50) = false) →
    runIdleLoop idleFor trace none fuel k = .timeoutErr hardTimeoutMs := by
  intro fuel
  induction fuel with
  | zero =>
    intro k hk hfuel h
    omega
  | succ n ih =>
    intro k hk hfuel h
    simp only [runIdleLoop, tickMs, hardTimeoutMs]
    rw [show cancelFires none (k * 50) = false from rfl, if_neg (by simp)]
    by_cases hbig : 30000 < k * 50
    · rw [if_pos hbig]
    · rw [if_neg hbig]
      have hk600 : k ≤ 600 := by omega
      rw [h k (Nat.le_refl k) hk600, if_neg (by simp)]
      exact ih (k + 1) (by omega) (by omega) (fun j hj hj6 => h j (by omega) hj6)

theorem runIdle_success_aux (idleFor : Nat) (trace : List (Nat × NetEvent)) :
    ∀ (fuel k m : Nat), k ≤ m → m ≤ 600 →
    idleCheck idleFor trace (m * 50) = true →
    (∀ j, k ≤ j → j < m → idleCheck idleFor trace (j * 50) = false) →
    m - k < fuel →
    runIdleLoop idleFor trace none fuel k = .success (m * 50) := by
  intro fuel
  induction fuel with
  | zero =>
    intro k m hkm hm hc hmin hfuel
    omega
  | succ n ih =>
    intro k m hkm hm hc hmin hfuel
    simp only [runIdleLoop, tickMs, hardTimeoutMs]
    rw [show cancelFires none (k * 50) = false from rfl, if_neg (by simp)]
    rw [if_neg (show ¬ 30000 < k * 50 by omega)]
    by_cases hkm' : k = m
    · subst hkm'
      rw [hc, if_pos rfl]
    · have hlt : k < m := Nat.lt_of_le_of_ne hkm hkm'
      rw [hmin k (Nat.le_refl k) hlt, if_neg (by simp)]
      exact ih (k + 1) m (by omega) hm hc (fun j hj hjm => hmin j (by omega) hjm) (by omega)

theorem runIdle_sound_aux (idleFor : Nat) (trace : List (Nat × NetEvent)) :
    ∀ (fuel k t : Nat), runIdleLoop idleFor trace none fuel k = .success t →
    idleCheck idleFor trace t = true := by
  intro fuel
  induction fuel with
  | zero =>
    intro k t h
    simp [runIdleLoop] at h
  | succ n ih =>
    intro k t h
    simp only [runIdleLoop, tickMs, hardTimeoutMs] at h
    rw [show cancelFires none (k * 50) = false from rfl, if_neg (by simp)] at h
    by_cases hbig : 30000 < k * 50
    · rw [if_pos hbig] at h
      exact absurd h (by simp)
    · rw [if_neg hbig] at h
      by_cases hch : idleCheck idleFor trace (k * 50) = true
      · rw [hch, if_pos rfl] at h
        have ht : k * 50 = t := by
          injection h
        rw [← ht]
        exact hch
      · rw [if_neg (by simp [hch])] at h
        exact ih (k + 1) t h

theorem stateAt_tripleTrace (a1 a2 a3 b1 b2 b3 : Nat)
    (h12 : a1 < a2) (h23 : a2 < a3) (h3b : a3 < b1) (hb12 : b1 < b2) (hb23 : b2 < b3)
    (t : Nat) :
    stateAt (tripleTrace a1 a2 a3 b1 b2 b3) t =
      if b3 < t then ⟨0, b3⟩
      else if b2 < t then ⟨1, b2⟩
      else if b1 < t then ⟨2, b1⟩
      else if a3 < t then ⟨3, a3⟩
      else if a2 < t then ⟨2, a2⟩
      else if a1 < t then ⟨1, a1⟩
      else ⟨0, 0⟩ := by
  unfold stateAt tripleTrace
  by_cases h6 : b3 < t
  · have e1 : a1 < t := by omega
    have e2 : a2 < t := by omega
    have e3 : a3 < t := by omega
    have e4 : b1 < t := by omega
    have e5 : b2 < t := by omega
    norm_num [List.filter, List.foldl, listenStep, e1, e2, e3, e4, e5, h6]
  · by_cases h5 : b2 < t
    · have e1 : a1 < t := by omega
      have e2 : a2 < t := by omega
      have e3 : a3 < t := by omega
      have e4 : b1 < t := by omega
      norm_num [List.filter, List.foldl, listenStep, e1, e2, e3, e4, h5, h6]
    · by_cases h4 : b1 < t
      · have e1 : a1 < t := by omega
        have e2 : a2 < t := by omega
        have e3 : a3 < t := by omega
        norm_num [List.filter, List.foldl, listenStep, e1, e2, e3, h4, h5, h6]
      · by_cases h3 : a3 < t
        · have e1 : a1 < t := by omega
          have e2 : a2 < t := by omega
          norm_num [List.filter, List.foldl, listenStep, e1, e2, h3, h4, h5, h6]
        · by_cases h2 : a2 < t
          · have e1 : a1 < t := by omega
            norm_num [List.filter, List.foldl, listenStep, e1, h2, h3, h4, h5, h6]
          · by_cases h1 : a1 < t
            · norm_num [List.filter, List.foldl, listenStep, h1, h2, h3, h4, h5, h6]
            · norm_num [List.filter, List.foldl, listenStep, h1, h2, h3, h4, h5, h6]

/-- C4: for the three-starts-then-three-finishes stream with small gaps,
waitForNetworkIdle succeeds only at an instant where the in-flight
counter is zero and at least the idle window has elapsed since the last
activity; any success instant is at least the last finish plus the full
idle window, and success does occur. -/
theorem wait_idle_success_c4 (idleFor a1 a2 a3 b1 b2 b3 : Nat)
    (hpos : 0 < idleFor)
    (hstart : a1 < idleFor)
    (h12 : a1 < a2) (h23 : a2 < a3) (h3b : a3 < b1) (hb12 : b1 < b2) (hb23 : b2 < b3)
    (hg1 : a2 - a1 < idleFor) (hg2 : a3 - a2 < idleFor) (hg3 : b1 - a3 < idleFor)
    (hg4 : b2 - b1 < idleFor) (hg5 : b3 - b2 < idleFor)
    (hend : b3 + idleFor ≤ 29950) :
    (∀ t, waitForNetworkIdle idleFor none (tripleTrace a1 a2 a3 b1 b2 b3) = .success t →
      ((stateAt (tripleTrace a1 a2 a3 b1 b2 b3) t).inflight = 0 ∧
        idleFor ≤ t - (stateAt (tripleTrace a1 a2 a3 b1 b2 b3) t).lastActivity) ∧
      b3 + idleFor ≤ t)
    ∧ ∃ t, waitForNetworkIdle idleFor none (tripleTrace a1 a2 a3 b1 b2 b3) = .success t ∧
        b3 + idleFor ≤ t := by
  have hst := stateAt_tripleTrace a1 a2 a3 b1 b2 b3 h12 h23 h3b hb12 hb23
  have hcheck : ∀ t, idleCheck idleFor (tripleTrace a1 a2 a3 b1 b2 b3) t = true →
      b3 + idleFor ≤ t := by
    intro t hc
    unfold idleCheck at hc
    rw [hst t] at hc
    split_ifs at hc with h6 h5 h4 h3 h2 h1 <;> simp at hc <;> omega
  constructor
  · intro t ht
    simp only [waitForNetworkIdle] at ht
    have hc := runIdle_sound_aux idleFor (tripleTrace a1 a2 a3 b1 b2 b3) _ 1 t ht
    refine ⟨?_, hcheck t hc⟩
    unfold idleCheck at hc
    rw [Bool.and_eq_true] at hc
    obtain ⟨hc1, hc2⟩ := hc
    constructor
    · simpa using hc1
    · simpa using hc2
  · refine ⟨((b3 + idleFor + 49) / 50) * 50, ?_, by omega⟩
    have hcm : idleCheck idleFor (tripleTrace a1 a2 a3 b1 b2 b3)
        (((b3 + idleFor + 49) / 50) * 50) = true := by
      unfold idleCheck
      rw [hst]
      rw [if_pos (show b3 < ((b3 + idleFor + 49) / 50) * 50 by omega)]
      simp
      omega
    have hmin : ∀ j, 1 ≤ j → j < (b3 + idleFor + 49) / 50 →
        idleCheck idleFor (tripleTrace a1 a2 a3 b1 b2 b3) (j * 50) = false := by
      intro j hj1 hjm
      unfold idleCheck
      rw [hst]
      split_ifs with h6 h5 h4 h3 h2 h1 <;> simp <;> omega
    have := runIdle_success_aux idleFor (tripleTrace a1 a2 a3 b1 b2 b3)
      602 1 ((b3 + idleFor + 49) / 50)
      (by omega) (by omega) hcm (fun j hj hjm => hmin j hj hjm) (by omega)
    simpa [waitForNetworkIdle, hardTimeoutMs, tickMs] using this

theorem wait_idle_success_c4_w :
    (0 : Nat) < 1000 ∧
    ((∀ t, waitForNetworkIdle 1000 none (tripleTrace 100 200 300 400 500 600) = .success t →
      ((stateAt (tripleTrace 100 200 300 400 500 600) t).inflight = 0 ∧
        1000 ≤ t - (stateAt (tripleTrace 100 200 300 400 500 600) t).lastActivity) ∧
      600 + 1000 ≤ t)
    ∧ ∃ t, waitForNetworkIdle 1000 none (tripleTrace 100 200 300 400 500 600) = .success t ∧
        600 + 1000 ≤ t) :=
  ⟨by decide,
   wait_idle_success_c4 1000 100 200 300 400 500 600 (by decide) (by decide) (by decide)
     (by decide) (by decide) (by decide) (by decide) (by decide) (by decide) (by decide)
     (by decide) (by decide) (by decide)⟩

/-- C5: when the idle condition holds at no poll instant within the hard
ceiling, waitForNetworkIdle returns the idle-timeout error carrying
exactly the hard timeout instant, an outcome distinct from success and
from cancellation. -/
theorem wait_idle_timeout_c5 (idleFor : Nat) (trace : List (Nat × NetEvent))
    (h : ∀ j, j < 601 → 1 ≤ j → idleCheck idleFor trace (j * 50) = false) :
    waitForNetworkIdle idleFor none trace = .timeoutErr hardTimeoutMs
    ∧ (∀ u, WaitResult.timeoutErr hardTimeoutMs ≠ WaitResult.success u)
    ∧ (∀ u, WaitResult.timeoutErr hardTimeoutMs ≠ WaitResult.cancelled u) := by
  refine ⟨?_, fun u => by simp, fun u => by simp⟩
  have := runIdle_timeout_aux idleFor trace 602 1 (by omega) (by omega)
    (fun j hj1 hj6 => h j (by omega) hj1)
  simpa [waitForNetworkIdle, hardTimeoutMs, tickMs] using this

theorem wait_idle_timeout_c5_w :
    (∀ j, j < 601 → 1 ≤ j →
      idleCheck 1000 [(10, NetEvent.requestWillBeSent)] (j * 50) = false)
    ∧ (waitForNetworkIdle 1000 none [(10, NetEvent.requestWillBeSent)] =
        .timeoutErr hardTimeoutMs
      ∧ (∀ u, WaitResult.timeoutErr hardTimeoutMs ≠ WaitResult.success u)
      ∧ (∀ u, WaitResult.timeoutErr hardTimeoutMs ≠ WaitResult.cancelled u)) :=
  ⟨by decide, wait_idle_timeout_c5 1000 [(10, NetEvent.requestWillBeSent)] (by decide)⟩

/-- C9: throughout any trace the in-flight counter stays non-negative;
a request-started event increments it and refreshes the timestamp; a
finished or failed event decrements it guarded at zero and refreshes
the timestamp. -/
theorem inflight_invariant_c9 :
    (∀ (trace : List (Nat × NetEvent)) (t : Nat), 0 ≤ (stateAt trace t).inflight)
    ∧ (∀ (now : Nat) (st : NetState),
        listenStep now st .requestWillBeSent = ⟨st.inflight + 1, now⟩)
    ∧ (∀ (now : Nat) (st : NetState),
        listenStep now st .loadingFinished =
          ⟨if st.inflight > 0 then st.inflight - 1 else st.inflight, now⟩)
    ∧ (∀ (now : Nat) (st : NetState),
        listenStep now st .loadingFailed =
          ⟨if st.inflight > 0 then st.inflight - 1 else st.inflight, now⟩) := by
  refine ⟨?_, fun _ _ => rfl, fun _ _ => rfl, fun _ _ => rfl⟩
  intro trace t
  have key : ∀ (l : List (Nat × NetEvent)) (st : NetState), 0 ≤ st.inflight →
      0 ≤ (l.foldl (fun st p => listenStep p.1 st p.2) st).inflight := by
    intro l
    induction l with
    | nil =>
      intro st h
      exact h
    | cons p ps ih =>
      intro st h
      apply ih
      obtain ⟨tp, ev⟩ := p
      cases ev with
      | requestWillBeSent =>
        simp [listenStep]
        omega
      | loadingFinished =>
        rw [show (listenStep tp st .loadingFinished).inflight =
          if st.inflight > 0 then st.inflight - 1 else st.inflight from rfl]
        split_ifs with hpos <;> omega
      | loadingFailed =>
        rw [show (listenStep tp st .loadingFailed).inflight =
          if st.inflight > 0 then st.inflight - 1 else st.inflight from rfl]
        split_ifs with hpos <;> omega
      | other => simpa [listenStep] using h
  exact key _ _ (by simp)

/-- C6: the resolved stylesheet output path for response index i is
derived from the authored href when one is present at that index and
from the response URL otherwise; the chosen string's URL path component
is used; an empty or root path falls back to external_css_<i+1>.css
(1-based); leading slashes are stripped and the result joined under the
css output subdirectory preserving all intermediate segments, so the
authored path /static/css/app.css wins over a CDN response URL. -/
theorem style_path_c6 :
    (∀ (cssURLs linkHrefs : List String) (i : Nat), i < linkHrefs.length →
      styleOutputPath cssURLs linkHrefs i = resolveStylePath (linkHrefs.getD i "") (i + 1))
    ∧ (∀ (cssURLs linkHrefs : List String) (i : Nat), ¬ i < linkHrefs.length →
      styleOutputPath cssURLs linkHrefs i = resolveStylePath (cssURLs.getD i "") (i + 1))
    ∧ (∀ (s : String) (n : Nat), urlPath s = "" ∨ urlPath s = "/" →
      resolveStylePath s n =
        "output" ++ "/" ++ "css" ++ "/" ++ trimLeftSlash ("external_css_" ++ toString n ++ ".css"))
    ∧ (∀ (s : String) (n : Nat), ¬ (urlPath s = "" ∨ urlPath s = "/") →
      resolveStylePath s n = "output" ++ "/" ++ "css" ++ "/" ++ trimLeftSlash (urlPath s))
    ∧ styleOutputPath ["https://cdn.example.com/x7f.css"] ["/static/css/app.css"] 0 =
        "output/css/static/css/app.css"
    ∧ styleOutputPath ["https://a.example.com/a.css", "https://b.example.com/b.css"] ["x", ""] 1 =
        "output/css/external_css_2.css" := by
  refine ⟨?_, ?_, ?_, ?_, by decide, by decide⟩
  · intro cssURLs linkHrefs i hi
    simp [styleOutputPath, hi]
  · intro cssURLs linkHrefs i hi
    simp [styleOutputPath, hi]
  · intro s n h
    simp [resolveStylePath, if_pos h]
  · intro s n h
    simp [resolveStylePath, if_neg h]

theorem style_path_c6_w :
    ((0 : Nat) < 1
     ∧ styleOutputPath ["u"] ["/a/b.css"] 0 = resolveStylePath "/a/b.css" 1)
    ∧ (¬ (0 : Nat) < 0
     ∧ styleOutputPath ["/q.css"] ([] : List String) 0 = resolveStylePath "/q.css" 1)
    ∧ ((urlPath "https://cdn.example.com" = "" ∨ urlPath "https://cdn.example.com" = "/")
     ∧ resolveStylePath "https://cdn.example.com" 3 =
         "output" ++ "/" ++ "css" ++ "/" ++ trimLeftSlash ("external_css_" ++ toString 3 ++ ".css"))
    ∧ (¬ (urlPath "/a.css" = "" ∨ urlPath "/a.css" = "/")
     ∧ resolveStylePath "/a.css" 1 =
         "output" ++ "/" ++ "css" ++ "/" ++ trimLeftSlash (urlPath "/a.css")) :=
  ⟨⟨by decide, style_path_c6.1 ["u"] ["/a/b.css"] 0 (by decide)⟩,
   ⟨by decide, style_path_c6.2.1 ["/q.css"] [] 0 (by decide)⟩,
   ⟨by decide, style_path_c6.2.2.1 "https://cdn.example.com" 3 (by decide)⟩,
   ⟨by decide, style_path_c6.2.2.2.1 "/a.css" 1 (by decide)⟩⟩
